import Mathlib

set_option maxRecDepth 100000

/-!
Shallow embedding of the per-channel MPEG-TS descrambling engine of
`vmdecrypt.go`: RTP framing, PSI walk (PAT -> PMT -> ECM pid), ECM
processing, TS descrambling, RTP payload slicing and the ring fan-out.
Bytes are modelled as `Nat` (values < 256 in well-formed packets);
Go's AES-ECB single-block decryption is an abstract parameter
`D : key -> block -> block`.
-/

namespace VMDecrypt

/-- Big-endian 16-bit read, `binary.BigEndian.Uint16`. -/
def u16be (a b : Nat) : Nat := a * 256 + b

/-- The error outcomes of the engine's fallible functions. -/
inductive GoErr where
  | rtpVersion
  | rtpPayloadLength
  | tsSync
  | patPointer
  | patTable
  | pmtPointer
  | pmtTable
  | ecmPidNotFound
  | ecmMagic
  deriving DecidableEq, Repr

deriving instance DecidableEq for Except

/-- The RTP-framing state of a `Channel` (`lastRTPSeq`, `firstPkt`). -/
structure RtpState where
  lastRTPSeq : Nat
  firstPkt : Bool
  deriving DecidableEq, Repr

/-- `Channel.parseRTP`: validates the RTP version, tracks the sequence
number, and returns the offset of the TS payload.  The extension size is
`4 + int(uint16(u16be(pkt[14:16])) * 4)`; the multiplication is done in
Go's `uint16`, hence the `% 65536`. -/
def parseRTP (st : RtpState) (pkt : List Nat) : RtpState × Except GoErr Nat :=
  let version := pkt[0]! >>> 6
  if version ≠ 2 then (st, .error .rtpVersion)
  else
    let hasExtension := (pkt[0]! >>> 4) &&& 1
    let seq := u16be pkt[2]! pkt[3]!
    let st1 := if st.firstPkt then
        { lastRTPSeq := (seq + 65535) % 65536, firstPkt := false }
      else st
    let st2 := { st1 with lastRTPSeq := seq }
    let extSize := if hasExtension > 0 then
        4 + (u16be pkt[14]! pkt[15]! * 4) % 65536
      else 0
    (st2, .ok (12 + extSize))

/-- An RTP header whose extension-length field is `0x4000`: the Go
computation `uint16(0x4000) * 4` wraps to `0`. -/
def cexRtpPkt : List Nat :=
  (List.range 16).map (fun i => if i = 0 then 0x90 else if i = 14 then 0x40 else 0)

/-- A fresh RTP state, as built by `newChannel` (`firstPkt = true`). -/
def initRtpState : RtpState := { lastRTPSeq := 0, firstPkt := true }

/-- The PSI/ECM/key state of a `Channel`.  `masterKey` holds the bytes
of `hex.DecodeString(ch.masterKey)`; `aesKey1`/`aesKey2` are the two
working keys (`nil` modelled as `none`). -/
structure ChanState where
  pmtPid : Nat
  pmtPidFound : Bool
  ecmPid : Nat
  ecmPidFound : Bool
  masterKey : List Nat
  aesKey1 : Option (List Nat)
  aesKey2 : Option (List Nat)
  deriving DecidableEq, Repr

/-- The channel state built by `newChannel`: no PSI pids yet, no keys. -/
def initChanState (mk : List Nat) : ChanState :=
  { pmtPid := 0, pmtPidFound := false, ecmPid := 0, ecmPidFound := false
    masterKey := mk, aesKey1 := none, aesKey2 := none }

/-- The 64-byte ECM plaintext of `Channel.processECM`: four AES-ECB
blocks decrypted from the ciphertext at TS packet bytes 29, 45, 61, 77
with the master key (`cipher.Decrypt(ecm[i*16:], pkt[29+i*16:])`). -/
def ecmPlain (D : List Nat → List Nat → List Nat) (key : List Nat)
    (pkt : List Nat) : List Nat :=
  D key ((pkt.drop 29).take 16) ++ D key ((pkt.drop 45).take 16) ++
  D key ((pkt.drop 61).take 16) ++ D key ((pkt.drop 77).take 16)

/-- `Channel.processECM`: decrypt the 64 ECM bytes, check the `CEB`
magic, and install the two working keys ordered by the selector byte
`pkt[5]`.  On magic failure the state is returned untouched. -/
def processECM (D : List Nat → List Nat → List Nat) (st : ChanState)
    (pkt : List Nat) : ChanState × Option GoErr :=
  if (ecmPlain D st.masterKey pkt)[0]! ≠ 0x43 ∨
     (ecmPlain D st.masterKey pkt)[1]! ≠ 0x45 ∨
     (ecmPlain D st.masterKey pkt)[2]! ≠ 0x42 then
    (st, some .ecmMagic)
  else if pkt[5]! = 0x81 then
    ({ st with aesKey1 := some (((ecmPlain D st.masterKey pkt).drop 9).take 16)
               aesKey2 := some (((ecmPlain D st.masterKey pkt).drop 25).take 16) },
     none)
  else
    ({ st with aesKey2 := some (((ecmPlain D st.masterKey pkt).drop 9).take 16)
               aesKey1 := some (((ecmPlain D st.masterKey pkt).drop 25).take 16) },
     none)

/-- The descrambling loop of `Channel.decryptPacket`:
`for len(pkt) > 16 { cipher.Decrypt(pkt, pkt); pkt = pkt[16:] }` -
decrypt consecutive 16-byte blocks while more than 16 bytes remain,
leaving the final fragment of at most 16 bytes untouched. -/
def decryptBody (f : List Nat → List Nat) (body : List Nat) : List Nat :=
  if _h : 16 < body.length then
    f (body.take 16) ++ decryptBody f (body.drop 16)
  else body
termination_by body.length
decreasing_by simp [List.length_drop]; omega

/-- `Channel.decryptPacket`: pass through if either working key is
missing or the scrambling-control bits are below 2; otherwise decrypt
the body from byte 4 with `aesKey2` (scrambling-control 2) or
`aesKey1` (scrambling-control 3). -/
def decryptPacket (D : List Nat → List Nat → List Nat)
    (k1 k2 : Option (List Nat)) (pkt : List Nat) : List Nat :=
  match k1, k2 with
  | some a, some b =>
    let scramble := (pkt[3]! >>> 6) &&& 3
    if scramble < 2 then pkt
    else
      let aesKey := if scramble = 2 then b else a
      pkt.take 4 ++ decryptBody (D aesKey) (pkt.drop 4)
  | _, _ => pkt

/-- `Channel.parseEcmPid`: scan `(tag, length, value)` descriptor
records; on tag `0x09` with CA system id `0x5601` return the ECM pid
`u16be(desc[4:6])`; otherwise skip `2 + length` bytes; error out when
the scan ends. -/
def parseEcmPid : List Nat → Except GoErr Nat
  | [] => .error .ecmPidNotFound
  | d@(_ :: _) =>
    let length := d[1]!
    if d[0]! = 0x09 then
      if u16be d[2]! d[3]! = 0x5601 then .ok (u16be d[4]! d[5]!)
      else parseEcmPid (d.drop (2 + length))
    else parseEcmPid (d.drop (2 + length))
termination_by d => d.length
decreasing_by all_goals (subst_vars; simp; try omega)

/-- Modelled from the spec's wording of the descriptor scan: the first
CA descriptor (tag `0x09`) whose `caid = u16be(value[0:2])` equals
`0x5601` yields `u16be(value[2:4])`; `none` when the scan finds no
match.  Used only to compare against `parseEcmPid`. -/
def findCA : List Nat → Option Nat
  | [] => none
  | d@(_ :: _) =>
    if d[0]! = 0x09 ∧ u16be d[2]! d[3]! = 0x5601 then some (u16be d[4]! d[5]!)
    else findCA (d.drop (2 + d[1]!))
termination_by d => d.length
decreasing_by subst_vars; simp; try omega

/-- The PAT branch of `Channel.processPacket` (guard
`!pmtPidFound && pid == 0`): require zero pointer field and table id,
then record `pmtPid = u16be(pkt[15:17]) & 0x1fff`. -/
def patStep (st : ChanState) (pid : Nat) (pkt : List Nat) :
    ChanState × Option GoErr :=
  if ¬st.pmtPidFound ∧ pid = 0 then
    if pkt[4]! ≠ 0 then (st, some .patPointer)
    else if pkt[5]! ≠ 0 then (st, some .patTable)
    else ({ st with pmtPid := u16be pkt[15]! pkt[16]! &&& 0x1fff
                    pmtPidFound := true }, none)
  else (st, none)

/-- The program-info length of a PMT packet:
`u16be(pkt[15:17]) & 0x03ff`. -/
def piLengthOf (pkt : List Nat) : Nat := u16be pkt[15]! pkt[16]! &&& 0x3ff

/-- The PMT branch of `Channel.processPacket` (guard
`!ecmPidFound && pmtPidFound && pid == pmtPid`): require zero pointer
field and table id 2, then scan the descriptors in
`pkt[17 : 17+piLength]` for the ECM pid. -/
def pmtStep (st : ChanState) (pid : Nat) (pkt : List Nat) :
    ChanState × Option GoErr :=
  if ¬st.ecmPidFound ∧ st.pmtPidFound ∧ pid = st.pmtPid then
    if pkt[4]! ≠ 0 then (st, some .pmtPointer)
    else if pkt[5]! ≠ 2 then (st, some .pmtTable)
    else
      match parseEcmPid ((pkt.drop 17).take (piLengthOf pkt)) with
      | .ok v => ({ st with ecmPid := v, ecmPidFound := true }, none)
      | .error e => (st, some e)
  else (st, none)

/-- The ECM branch of `Channel.processPacket` (guard
`ecmPidFound && pid == ecmPid`). -/
def ecmStep (D : List Nat → List Nat → List Nat) (st : ChanState)
    (pid : Nat) (pkt : List Nat) : ChanState × Option GoErr :=
  if st.ecmPidFound ∧ pid = st.ecmPid then processECM D st pkt
  else (st, none)

/-- `Channel.processPacket` on one 188-byte TS packet: sync-byte check,
then the PAT, PMT and ECM branches in order (threading the state), then
descrambling; returns the (possibly decrypted) packet that the engine
publishes. -/
def processPacket (D : List Nat → List Nat → List Nat) (st : ChanState)
    (pkt : List Nat) : ChanState × Except GoErr (List Nat) :=
  if pkt[0]! ≠ 0x47 then (st, .error .tsSync)
  else
    let pid := u16be pkt[1]! pkt[2]! &&& 0x1fff
    let r1 := patStep st pid pkt
    match r1.2 with
    | some e => (r1.1, .error e)
    | none =>
      let r2 := pmtStep r1.1 pid pkt
      match r2.2 with
      | some e => (r2.1, .error e)
      | none =>
        let r3 := ecmStep D r2.1 pid pkt
        match r3.2 with
        | some e => (r3.1, .error e)
        | none => (r3.1, .ok (decryptPacket D r3.1.aesKey1 r3.1.aesKey2 pkt))

/-- The loop of `Channel.processRTP`: peel 188-byte TS packets off the
front of the remaining payload and process each in order, stopping at
the first error; collects the published packets. -/
def processPackets (D : List Nat → List Nat → List Nat) :
    ChanState → List Nat → ChanState × Except GoErr (List (List Nat))
  | st, [] => (st, .ok [])
  | st, rest@(_ :: _) =>
    match processPacket D st (rest.take 188) with
    | (st1, .error e) => (st1, .error e)
    | (st1, .ok out) =>
      match processPackets D st1 (rest.drop 188) with
      | (st2, .error e) => (st2, .error e)
      | (st2, .ok outs) => (st2, .ok (out :: outs))
termination_by _ rest => rest.length
decreasing_by subst_vars; simp; try omega

/-- `Channel.processRTP`: reject payloads whose length past the offset
is not a multiple of 188, otherwise run the per-packet loop. -/
def processRTP (D : List Nat → List Nat → List Nat) (st : ChanState)
    (payload : List Nat) (offset : Nat) :
    ChanState × Except GoErr (List (List Nat)) :=
  if (payload.length - offset) % 188 ≠ 0 then (st, .error .rtpPayloadLength)
  else processPackets D st (payload.drop offset)

/-- Split a byte list into consecutive 188-byte chunks. -/
def chunks188 : List Nat → List (List Nat)
  | [] => []
  | l@(_ :: _) => l.take 188 :: chunks188 (l.drop 188)
termination_by l => l.length
decreasing_by subst_vars; simp; try omega

/-- Process a list of already-sliced TS packets in order, stopping at
the first error. -/
def foldPackets (D : List Nat → List Nat → List Nat) :
    ChanState → List (List Nat) → ChanState × Except GoErr (List (List Nat))
  | st, [] => (st, .ok [])
  | st, p :: ps =>
    match processPacket D st p with
    | (st1, .error e) => (st1, .error e)
    | (st1, .ok out) =>
      match foldPackets D st1 ps with
      | (st2, .error e) => (st2, .error e)
      | (st2, .ok outs) => (st2, .ok (out :: outs))

/-- The access pattern of the Go descriptor scan over the `desc` slice,
bounds-checked: `true` iff every index and slice operation the scan
performs (`desc[0]`, `desc[1]`, `desc[2:4]`, `desc[4:6]`,
`desc[2+length:]`) stays within the slice. -/
def scanOk : List Nat → Bool
  | [] => true
  | d@(_ :: _) =>
    if d.length < 2 then false
    else if d[0]! = 0x09 then
      if d.length < 4 then false
      else if u16be d[2]! d[3]! = 0x5601 then decide (6 ≤ d.length)
      else if 2 + d[1]! ≤ d.length then scanOk (d.drop (2 + d[1]!)) else false
    else if 2 + d[1]! ≤ d.length then scanOk (d.drop (2 + d[1]!)) else false
termination_by d => d.length
decreasing_by all_goals (subst_vars; simp; try omega)

/-- Structural well-formedness of a descriptor area: the records chain
exactly within the slice and every CA descriptor (tag `0x09`) carries
at least 4 value bytes. -/
def wfDesc : List Nat → Bool
  | [] => true
  | d@(_ :: _) =>
    decide (2 ≤ d.length) &&
    (if d[0]! = 0x09 then decide (4 ≤ d[1]!) else true) &&
    decide (2 + d[1]! ≤ d.length) &&
    wfDesc (d.drop (2 + d[1]!))
termination_by d => d.length
decreasing_by subst_vars; simp; try omega

/-- The invariant of the two working keys: either both absent or both
present as 16-byte values. -/
def keysOk (st : ChanState) : Prop :=
  (st.aesKey1 = none ∧ st.aesKey2 = none) ∨
  (∃ a b, st.aesKey1 = some a ∧ st.aesKey2 = some b ∧
    a.length = 16 ∧ b.length = 16)

/-- The state of the ring fan-out (`ch.buf` cursor, slot contents,
`ch.ioerr`).  `container/ring` of size 64 is modelled as `Fin 64`
positions. -/
structure RingState where
  bufPos : Fin 64
  slots : Fin 64 → Option (List Nat)
  ioerr : Bool

/-- `Channel.addToBuf`: store into the current slot, advance the write
cursor, broadcast. -/
def addToBuf (v : List Nat) (st : RingState) : RingState :=
  { st with slots := Function.update st.slots st.bufPos (some v)
            bufPos := st.bufPos + 1 }

/-- `Channel.closeBuf`: latch the terminal `ioerr` flag and broadcast. -/
def closeBuf (st : RingState) : RingState := { st with ioerr := true }

/-- `Channel.currentPtr`: the writer's cursor (a new reader's start). -/
def currentPtr (st : RingState) : Fin 64 := st.bufPos

/-- `Channel.nextPtr` after its wait loop: `none` models blocking
(`ptr == ch.buf && !ch.ioerr`); otherwise the closed ring yields
`(ptr, nil)` and the live ring yields `(ptr.Next(), ptr.Value)`. -/
def nextPtr (st : RingState) (ptr : Fin 64) :
    Option (Fin 64 × Option (List Nat)) :=
  if ptr = st.bufPos ∧ st.ioerr = false then none
  else if st.ioerr then some (ptr, none)
  else some (ptr + 1, st.slots ptr)

/-- The write-side operations of the ring. -/
inductive RingOp where
  | add (v : List Nat)
  | close

/-- Apply one ring operation. -/
def applyOp (st : RingState) : RingOp → RingState
  | .add v => addToBuf v st
  | .close => closeBuf st

/-- A closed ring state. -/
def cRingSt : RingState :=
  { bufPos := 0, slots := fun _ => none, ioerr := true }

/-- An abstract block decryptor for concrete runs: with the empty key
it is the identity, with any other key it returns the key itself, so a
decrypted block displays the key that was used. -/
def cD : List Nat → List Nat → List Nat := fun k b => if k = [] then b else k

/-- A block decryptor with constant 16-byte output, for witnesses that
need every decryption to be block-sized. -/
def cD16 : List Nat → List Nat → List Nat := fun _ _ => List.replicate 16 0

/-- A concrete ECM TS packet: selector byte `pkt[5] = 0x81`, plaintext
magic `CEB` at bytes 29..31 (under the identity decryptor with empty
master key), plaintext bytes 9..25 all `1` and bytes 25..41 all `2`. -/
def cEcmPkt : List Nat :=
  (List.range 188).map fun i =>
    if i = 5 then 0x81
    else if i = 29 then 0x43
    else if i = 30 then 0x45
    else if i = 31 then 0x42
    else if 38 ≤ i ∧ i < 54 then 1
    else if 54 ≤ i ∧ i < 70 then 2
    else 0

/-- A concrete scrambled TS packet with scrambling-control 2
(`pkt[3] = 0x80`) and zero body. -/
def cScrPkt : List Nat :=
  (List.range 188).map fun i => if i = 3 then 0x80 else 0

/-- A concrete all-clear TS packet (scrambling-control 0). -/
def cZeroPkt : List Nat := List.replicate 188 0

/-- A concrete PAT packet: sync byte, PID 0, zero pointer field and
table id, `pkt[15:17] = 0x20 0x42` (so the PMT pid is `0x0042`). -/
def cPatPkt : List Nat :=
  (List.range 188).map fun i =>
    if i = 0 then 0x47
    else if i = 15 then 0x20
    else if i = 16 then 0x42
    else 0

/-- A descriptor area holding one CA descriptor:
`09 04 56 01 01 23` (caid `0x5601`, ECM pid `0x0123`). -/
def cDesc : List Nat := [0x09, 0x04, 0x56, 0x01, 0x01, 0x23]

/-- A concrete PMT packet on PID `0x42` whose program-info length field
reads `0x03FF`: the descriptor slice `pkt[17 : 17+1023]` reaches far
past the 188-byte packet. -/
def cPmtBadPkt : List Nat :=
  (List.range 188).map fun i =>
    if i = 0 then 0x47
    else if i = 2 then 0x42
    else if i = 5 then 2
    else if i = 15 then 3
    else if i = 16 then 0xff
    else 0

/-- A concrete well-formed PMT packet on PID `0x42` with program-info
length 6 holding the CA descriptor `09 04 56 01 01 23`. -/
def cPmtPkt : List Nat :=
  (List.range 188).map fun i =>
    if i = 0 then 0x47
    else if i = 2 then 0x42
    else if i = 5 then 2
    else if i = 16 then 6
    else if i = 17 then 0x09
    else if i = 18 then 0x04
    else if i = 19 then 0x56
    else if i = 20 then 0x01
    else if i = 21 then 0x01
    else if i = 22 then 0x23
    else 0

/-- 16-byte working keys used in concrete runs. -/
def cKey1 : List Nat := List.replicate 16 1

/-- Second concrete 16-byte working key. -/
def cKey2 : List Nat := List.replicate 16 2

end VMDecrypt

namespace VMDecrypt

/-- C2 (counterexample): on a datagram with the extension flag set and
`bytes[14:16] = 0x40 0x00`, the framer accepts and returns offset
`12 + 4 + 0 = 16`, not the claimed `12 + 4 + 4 * 0x4000 = 65552`:
the 16-bit multiplication wraps around. -/
theorem parseRTP_ext_wraps :
    cexRtpPkt[0]! >>> 6 = 2 ∧
    (cexRtpPkt[0]! >>> 4) &&& 1 = 1 ∧
    u16be cexRtpPkt[14]! cexRtpPkt[15]! = 0x4000 ∧
    (parseRTP initRtpState cexRtpPkt).2 = .ok 16 ∧
    (16 : Nat) ≠ 12 + 4 + 4 * u16be cexRtpPkt[14]! cexRtpPkt[15]! := by
  decide

/-- C2 (amended): for every RTP datagram accepted by the framer, the
returned payload offset is `12` when the extension flag (byte 0 bit 4)
is clear, and `12 + 4 + (4 * u16be(bytes[14:16])) % 2^16` when it is
set: the multiplication is 16-bit and wraps. -/
theorem parseRTP_offset (st : RtpState) (pkt : List Nat)
    (hv : pkt[0]! >>> 6 = 2) :
    ((pkt[0]! >>> 4) &&& 1 = 0 → (parseRTP st pkt).2 = .ok 12) ∧
    ((pkt[0]! >>> 4) &&& 1 = 1 →
      (parseRTP st pkt).2 = .ok (12 + 4 + (4 * u16be pkt[14]! pkt[15]!) % 65536)) := by
  constructor
  · intro h0
    simp [parseRTP, hv, h0]
  · intro h1
    simp [parseRTP, hv, h1, Nat.mul_comm]
    omega

/-- Witness for C2's amended theorem at the concrete datagram
`cexRtpPkt`. -/
theorem parseRTP_offset_witness :
    (parseRTP initRtpState cexRtpPkt).2 =
      .ok (12 + 4 + (4 * u16be cexRtpPkt[14]! cexRtpPkt[15]!) % 65536) :=
  (parseRTP_offset initRtpState cexRtpPkt (by decide)).2 (by decide)

theorem decryptBody_of_le (f : List Nat → List Nat) (body : List Nat)
    (h : body.length ≤ 16) : decryptBody f body = body := by
  rw [decryptBody]
  exact dif_neg (by omega)

theorem decryptBody_of_gt (f : List Nat → List Nat) (body : List Nat)
    (h : 16 < body.length) :
    decryptBody f body = f (body.take 16) ++ decryptBody f (body.drop 16) := by
  rw [decryptBody]
  exact dif_pos h

theorem decryptBody_length (f : List Nat → List Nat)
    (hf : ∀ b, (f b).length = 16) (body : List Nat) :
    (decryptBody f body).length = body.length := by
  by_cases h : 16 < body.length
  · rw [decryptBody_of_gt f body h, List.length_append, hf,
      decryptBody_length f hf (body.drop 16), List.length_drop]
    omega
  · rw [decryptBody_of_le f body (by omega)]
termination_by body.length
decreasing_by simp; omega

theorem decryptBody_tail (f : List Nat → List Nat)
    (hf : ∀ b, (f b).length = 16) :
    ∀ (n : Nat) (body : List Nat), body.length ≤ 16 * n + 16 →
      (decryptBody f body).drop (16 * n) = body.drop (16 * n) := by
  intro n
  induction n with
  | zero =>
    intro body h
    rw [decryptBody_of_le f body (by omega)]
  | succ m ih =>
    intro body h
    by_cases hgt : 16 < body.length
    · have hfl : (f (body.take 16)).length = 16 := hf _
      have hsplit :
          (f (body.take 16) ++ decryptBody f (body.drop 16)).drop (16 * (m + 1)) =
            (decryptBody f (body.drop 16)).drop (16 * m) := by
        rw [show 16 * (m + 1) = (f (body.take 16)).length + 16 * m by omega,
          List.drop_append]
      rw [decryptBody_of_gt f body hgt, hsplit,
        ih (body.drop 16) (by simp; omega), List.drop_drop,
        show (16 : Nat) + 16 * m = 16 * (m + 1) by ring]
    · rw [decryptBody_of_le f body (by omega)]

theorem decryptBody_block (f : List Nat → List Nat)
    (hf : ∀ b, (f b).length = 16) :
    ∀ (i : Nat) (body : List Nat), 16 * (i + 1) < body.length →
      ((decryptBody f body).drop (16 * i)).take 16 =
        f ((body.drop (16 * i)).take 16) := by
  intro i
  induction i with
  | zero =>
    intro body h
    have hgt : 16 < body.length := by omega
    rw [decryptBody_of_gt f body hgt]
    simp only [Nat.mul_zero, List.drop_zero]
    exact List.take_left' (hf _)
  | succ m ih =>
    intro body h
    have hgt : 16 < body.length := by omega
    have hfl : (f (body.take 16)).length = 16 := hf _
    have hsplit :
        (f (body.take 16) ++ decryptBody f (body.drop 16)).drop (16 * (m + 1)) =
          (decryptBody f (body.drop 16)).drop (16 * m) := by
      rw [show 16 * (m + 1) = (f (body.take 16)).length + 16 * m by omega,
        List.drop_append]
    rw [decryptBody_of_gt f body hgt, hsplit,
      ih (body.drop 16) (by simp; omega), List.drop_drop,
      show (16 : Nat) + 16 * m = 16 * (m + 1) by ring]

/-- C3: the ECM processor decrypts exactly the 64 ciphertext bytes at
TS bytes 29..93 in four 16-byte blocks with the master key; it fails
exactly when the plaintext does not begin `0x43 0x45 0x42`, the only
failure is `ecmMagic`, and on failure the channel state (in particular
both working keys) is unchanged. -/
theorem processECM_magic_check (D : List Nat → List Nat → List Nat)
    (hD : ∀ k b, (D k b).length = 16) (st : ChanState) (pkt : List Nat) :
    (ecmPlain D st.masterKey pkt).length = 64 ∧
    ecmPlain D st.masterKey pkt =
      D st.masterKey ((pkt.drop 29).take 16) ++
      D st.masterKey ((pkt.drop 45).take 16) ++
      D st.masterKey ((pkt.drop 61).take 16) ++
      D st.masterKey ((pkt.drop 77).take 16) ∧
    ((processECM D st pkt).2 = some .ecmMagic ↔
      ¬((ecmPlain D st.masterKey pkt)[0]! = 0x43 ∧
        (ecmPlain D st.masterKey pkt)[1]! = 0x45 ∧
        (ecmPlain D st.masterKey pkt)[2]! = 0x42)) ∧
    ((processECM D st pkt).2 ≠ none → (processECM D st pkt).1 = st) ∧
    ((processECM D st pkt).2 = none ∨ (processECM D st pkt).2 = some .ecmMagic) := by
  refine ⟨by simp [ecmPlain, hD], rfl, ?_, ?_, ?_⟩
  · by_cases hm : (ecmPlain D st.masterKey pkt)[0]! ≠ 0x43 ∨
        (ecmPlain D st.masterKey pkt)[1]! ≠ 0x45 ∨
        (ecmPlain D st.masterKey pkt)[2]! ≠ 0x42
    · simp only [processECM, if_pos hm]
      simp
      tauto
    · simp only [processECM, if_neg hm]
      push_neg at hm
      obtain ⟨h0, h1, h2⟩ := hm
      split <;> simp [h0, h1, h2]
  · by_cases hm : (ecmPlain D st.masterKey pkt)[0]! ≠ 0x43 ∨
        (ecmPlain D st.masterKey pkt)[1]! ≠ 0x45 ∨
        (ecmPlain D st.masterKey pkt)[2]! ≠ 0x42
    · simp [processECM, if_pos hm]
    · simp only [processECM, if_neg hm]
      split <;> simp
  · by_cases hm : (ecmPlain D st.masterKey pkt)[0]! ≠ 0x43 ∨
        (ecmPlain D st.masterKey pkt)[1]! ≠ 0x45 ∨
        (ecmPlain D st.masterKey pkt)[2]! ≠ 0x42
    · simp [processECM, if_pos hm]
    · simp only [processECM, if_neg hm]
      split <;> simp

/-- Witness for C3 at a concrete ECM TS packet and decryptor (here the
magic check fails, the state is unchanged). -/
theorem processECM_magic_check_witness :
    ((processECM cD16 (initChanState []) cEcmPkt).2 = some .ecmMagic ↔
      ¬((ecmPlain cD16 (initChanState []).masterKey cEcmPkt)[0]! = 0x43 ∧
        (ecmPlain cD16 (initChanState []).masterKey cEcmPkt)[1]! = 0x45 ∧
        (ecmPlain cD16 (initChanState []).masterKey cEcmPkt)[2]! = 0x42)) :=
  (processECM_magic_check cD16 (fun k b => by simp [cD16])
    (initChanState []) cEcmPkt).2.2.1

/-- C4: for a 188-byte TS packet with scrambling-control at least 2 and
both working keys installed, the descrambler output is the 4-byte
header followed by the block-decrypted body: the header is unmodified,
the final 8 bytes (bytes 180..187, the residue of 184 mod 16) are
unmodified, the length is preserved, each of the 11 full 16-byte blocks
at offsets 4+16i is decrypted, and the loop never touches a final
fragment of 16 bytes or fewer. -/
theorem decryptPacket_blocks (D : List Nat → List Nat → List Nat)
    (hD : ∀ k b, (D k b).length = 16) (k1 k2 pkt : List Nat)
    (h188 : pkt.length = 188) (hsc : 2 ≤ (pkt[3]! >>> 6) &&& 3) :
    decryptPacket D (some k1) (some k2) pkt =
      pkt.take 4 ++
        decryptBody (D (if (pkt[3]! >>> 6) &&& 3 = 2 then k2 else k1))
          (pkt.drop 4) ∧
    (decryptPacket D (some k1) (some k2) pkt).take 4 = pkt.take 4 ∧
    (decryptPacket D (some k1) (some k2) pkt).drop 180 = pkt.drop 180 ∧
    (decryptPacket D (some k1) (some k2) pkt).length = 188 ∧
    (∀ i, i < 11 →
      ((decryptPacket D (some k1) (some k2) pkt).drop (4 + 16 * i)).take 16 =
        D (if (pkt[3]! >>> 6) &&& 3 = 2 then k2 else k1)
          ((pkt.drop (4 + 16 * i)).take 16)) ∧
    (∀ (f : List Nat → List Nat) (body : List Nat), body.length ≤ 16 →
      decryptBody f body = body) := by
  have hnot : ¬((pkt[3]! >>> 6) &&& 3 < 2) := by omega
  set key := if (pkt[3]! >>> 6) &&& 3 = 2 then k2 else k1 with hkey
  have hf : ∀ b, (D key b).length = 16 := fun b => hD key b
  have h4 : (pkt.take 4).length = 4 := by simp [h188]
  have hbody : (pkt.drop 4).length = 184 := by simp [h188]
  have heq : decryptPacket D (some k1) (some k2) pkt =
      pkt.take 4 ++ decryptBody (D key) (pkt.drop 4) := by
    simp [decryptPacket, hnot, hkey]
  refine ⟨heq, ?_, ?_, ?_, ?_, fun f body hb => decryptBody_of_le f body hb⟩
  · rw [heq]
    exact List.take_left' h4
  · rw [heq, show (180 : Nat) = (pkt.take 4).length + 176 by omega,
      List.drop_append]
    have ht := decryptBody_tail (D key) hf 11 (pkt.drop 4) (by omega)
    norm_num at ht
    rw [ht, h4]
  · rw [heq, List.length_append, decryptBody_length (D key) hf]
    omega
  · intro i hi
    have hlt : 16 * (i + 1) < (pkt.drop 4).length := by omega
    have hb := decryptBody_block (D key) hf i (pkt.drop 4) hlt
    have hsplit :
        (pkt.take 4 ++ decryptBody (D key) (pkt.drop 4)).drop (4 + 16 * i) =
          (decryptBody (D key) (pkt.drop 4)).drop (16 * i) := by
      rw [show 4 + 16 * i = (pkt.take 4).length + 16 * i by omega,
        List.drop_append]
    rw [heq, hsplit, hb, List.drop_drop]

/-- Witness for C4 at a concrete scrambled packet and keys. -/
theorem decryptPacket_blocks_witness :
    (decryptPacket cD16 (some cKey1) (some cKey2) cScrPkt).drop 180 =
      cScrPkt.drop 180 ∧
    (decryptPacket cD16 (some cKey1) (some cKey2) cScrPkt).take 4 =
      cScrPkt.take 4 :=
  ⟨(decryptPacket_blocks cD16 (fun k b => by simp [cD16]) cKey1 cKey2 cScrPkt
      (by decide) (by decide)).2.2.1,
   (decryptPacket_blocks cD16 (fun k b => by simp [cD16]) cKey1 cKey2 cScrPkt
      (by decide) (by decide)).2.1⟩

/-- C5: a TS packet whose scrambling-control bits are below 2 passes
through the descrambler unchanged, and so does any packet processed
while the working key its scrambling-control selects (`aesKey2` for 2,
`aesKey1` for 3) is not installed. -/
theorem decryptPacket_passthrough (D : List Nat → List Nat → List Nat)
    (k1 k2 : Option (List Nat)) (pkt : List Nat) :
    ((pkt[3]! >>> 6) &&& 3 < 2 → decryptPacket D k1 k2 pkt = pkt) ∧
    ((pkt[3]! >>> 6) &&& 3 = 2 → k2 = none → decryptPacket D k1 k2 pkt = pkt) ∧
    ((pkt[3]! >>> 6) &&& 3 = 3 → k1 = none → decryptPacket D k1 k2 pkt = pkt) := by
  refine ⟨?_, ?_, ?_⟩ <;> cases k1 <;> cases k2 <;>
    simp_all [decryptPacket]

/-- Witness for C5: an all-clear packet passes through even with both
keys installed, and a scrambling-control-2 packet passes through when
`aesKey2` is missing. -/
theorem decryptPacket_passthrough_witness :
    decryptPacket cD16 (some cKey1) (some cKey2) cZeroPkt = cZeroPkt ∧
    decryptPacket cD16 (some cKey1) none cScrPkt = cScrPkt :=
  ⟨(decryptPacket_passthrough cD16 (some cKey1) (some cKey2) cZeroPkt).1
      (by decide),
   (decryptPacket_passthrough cD16 (some cKey1) none cScrPkt).2.1
      (by decide) rfl⟩

/-- C1 (counterexample): a concrete ECM packet with selector byte
`0x81` whose plaintext bytes 9..25 are all `1` (= `cKey1`) and bytes
25..41 all `2` (= `cKey2`).  After processing, `aesKey1 = cKey1` and
`aesKey2 = cKey2`; a packet with scrambling-control 2 is then decrypted
with `aesKey2` (the decryptor `cD` echoes the key, so the first
decrypted block shows it), i.e. with plaintext bytes 25..41 - not with
bytes 9..25 as the claim states. -/
theorem processECM_key_roles_cex :
    cEcmPkt[5]! = 0x81 ∧
    ((ecmPlain cD (initChanState []).masterKey cEcmPkt).drop 9).take 16 = cKey1 ∧
    ((ecmPlain cD (initChanState []).masterKey cEcmPkt).drop 25).take 16 = cKey2 ∧
    (processECM cD (initChanState []) cEcmPkt).1.aesKey1 = some cKey1 ∧
    (processECM cD (initChanState []) cEcmPkt).1.aesKey2 = some cKey2 ∧
    (cScrPkt[3]! >>> 6) &&& 3 = 2 ∧
    ((decryptPacket cD (some cKey1) (some cKey2) cScrPkt).drop 4).take 16 = cKey2 ∧
    cKey2 ≠ cKey1 := by
  refine ⟨by decide, by decide, by decide, by decide, by decide, by decide,
    ?_, by decide⟩
  simp [decryptPacket, decryptBody, cScrPkt, cD, cKey1, cKey2, List.range_succ,
    show (2 : Nat) &&& 3 = 2 from by decide]

/-- C1 (amended): on a successfully processed ECM, if the selector byte
`pkt[5]` is `0x81` then the odd working key (`aesKey1`, used for
scrambling-control 3) is plaintext bytes 9..25 and the even working key
(`aesKey2`, used for scrambling-control 2) is plaintext bytes 25..41;
for any other selector the roles are swapped.  The second half records
the role assignment: the descrambler uses `aesKey2` for
scrambling-control 2 and `aesKey1` for 3. -/
theorem processECM_key_roles (D : List Nat → List Nat → List Nat)
    (st : ChanState) (pkt : List Nat)
    (hmagic : (ecmPlain D st.masterKey pkt)[0]! = 0x43 ∧
      (ecmPlain D st.masterKey pkt)[1]! = 0x45 ∧
      (ecmPlain D st.masterKey pkt)[2]! = 0x42) :
    ((pkt[5]! = 0x81 →
        (processECM D st pkt).1.aesKey1 =
          some (((ecmPlain D st.masterKey pkt).drop 9).take 16) ∧
        (processECM D st pkt).1.aesKey2 =
          some (((ecmPlain D st.masterKey pkt).drop 25).take 16)) ∧
     (pkt[5]! ≠ 0x81 →
        (processECM D st pkt).1.aesKey2 =
          some (((ecmPlain D st.masterKey pkt).drop 9).take 16) ∧
        (processECM D st pkt).1.aesKey1 =
          some (((ecmPlain D st.masterKey pkt).drop 25).take 16)) ∧
     (processECM D st pkt).2 = none) ∧
    (∀ (a b pkt2 : List Nat),
      ((pkt2[3]! >>> 6) &&& 3 = 2 →
        decryptPacket D (some a) (some b) pkt2 =
          pkt2.take 4 ++ decryptBody (D b) (pkt2.drop 4)) ∧
      ((pkt2[3]! >>> 6) &&& 3 = 3 →
        decryptPacket D (some a) (some b) pkt2 =
          pkt2.take 4 ++ decryptBody (D a) (pkt2.drop 4))) := by
  obtain ⟨h0, h1, h2⟩ := hmagic
  have hm : ¬((ecmPlain D st.masterKey pkt)[0]! ≠ 0x43 ∨
      (ecmPlain D st.masterKey pkt)[1]! ≠ 0x45 ∨
      (ecmPlain D st.masterKey pkt)[2]! ≠ 0x42) := by
    push_neg
    exact ⟨h0, h1, h2⟩
  constructor
  · refine ⟨fun h81 => ?_, fun h81 => ?_, ?_⟩
    · simp [processECM, if_neg hm, h81]
    · simp [processECM, if_neg hm, h81]
    · simp only [processECM, if_neg hm]
      split <;> rfl
  · intro a b pkt2
    constructor
    · intro hsc
      simp [decryptPacket, hsc]
    · intro hsc
      simp [decryptPacket, hsc]

/-- Witness for C1's amended theorem at the concrete ECM packet
`cEcmPkt` (selector `0x81`). -/
theorem processECM_key_roles_witness :
    (processECM cD (initChanState []) cEcmPkt).1.aesKey1 =
      some (((ecmPlain cD (initChanState []).masterKey cEcmPkt).drop 9).take 16) ∧
    (processECM cD (initChanState []) cEcmPkt).1.aesKey2 =
      some (((ecmPlain cD (initChanState []).masterKey cEcmPkt).drop 25).take 16) :=
  ((processECM_key_roles cD (initChanState []) cEcmPkt
      ⟨by decide, by decide, by decide⟩).1.1 (by decide))


theorem parseEcmPid_eq_findCA : ∀ desc : List Nat,
    parseEcmPid desc =
      (match findCA desc with
       | some v => Except.ok v
       | none => Except.error GoErr.ecmPidNotFound)
  | [] => by simp [parseEcmPid, findCA]
  | a :: rest => by
    have ih := parseEcmPid_eq_findCA ((a :: rest).drop (2 + rest[0]!))
    by_cases h9 : a = 0x09
    · subst h9
      by_cases hc : u16be rest[1]! rest[2]! = 0x5601
      · simp [parseEcmPid, findCA, hc]
      · simp [parseEcmPid, findCA, hc, ih]
    · simp [parseEcmPid, findCA, h9, ih]
termination_by desc => desc.length
decreasing_by all_goals (simp; try omega)

/-- C6: PSI discovery.  While the PMT pid is unknown, a PID-0 packet is
accepted only with zero pointer field and table id (else the
`patPointer` / `patTable` errors) and then installs
`pmtPid = u16be(pkt[15:17]) & 0x1fff`; while the ECM pid is unknown, a
packet on the PMT pid with a CA descriptor for caid `0x5601` installs
the ECM pid `u16be(value[2:4])`, and a scan without a match fails with
`ecmPidNotFound` - `parseEcmPid` agrees everywhere with the
spec-worded scan `findCA`. -/
theorem psi_walker_discovery (st : ChanState) (pid : Nat)
    (pkt desc : List Nat) :
    (¬st.pmtPidFound = true → pid = 0 →
      ((pkt[4]! ≠ 0 → patStep st pid pkt = (st, some .patPointer)) ∧
       (pkt[4]! = 0 → pkt[5]! ≠ 0 → patStep st pid pkt = (st, some .patTable)) ∧
       (pkt[4]! = 0 → pkt[5]! = 0 →
         patStep st pid pkt =
           ({ st with pmtPid := u16be pkt[15]! pkt[16]! &&& 0x1fff
                      pmtPidFound := true }, none)))) ∧
    (¬st.ecmPidFound = true → st.pmtPidFound = true → pid = st.pmtPid →
      pkt[4]! = 0 → pkt[5]! = 2 →
      ((∀ v, parseEcmPid ((pkt.drop 17).take (piLengthOf pkt)) = .ok v →
          pmtStep st pid pkt = ({ st with ecmPid := v, ecmPidFound := true }, none)) ∧
       (parseEcmPid ((pkt.drop 17).take (piLengthOf pkt)) = .error .ecmPidNotFound →
          pmtStep st pid pkt = (st, some .ecmPidNotFound)))) ∧
    (parseEcmPid desc =
      (match findCA desc with
       | some v => Except.ok v
       | none => Except.error GoErr.ecmPidNotFound)) := by
  refine ⟨?_, ?_, parseEcmPid_eq_findCA desc⟩
  · intro hnf hpid
    refine ⟨fun h4 => ?_, fun h4 h5 => ?_, fun h4 h5 => ?_⟩
    · simp [patStep, hnf, hpid, h4]
    · simp [patStep, hnf, hpid, h4, h5]
    · simp [patStep, hnf, hpid, h4, h5]
  · intro hne hf hpid h4 h5
    refine ⟨fun v hok => ?_, fun herr => ?_⟩
    · simp [pmtStep, hne, hf, hpid, h4, h5, hok]
    · simp [pmtStep, hne, hf, hpid, h4, h5, herr]

/-- Witness for C6 at a concrete PAT packet and CA descriptor area. -/
theorem psi_walker_discovery_witness :
    patStep (initChanState []) 0 cPatPkt =
      ({ initChanState [] with
          pmtPid := u16be cPatPkt[15]! cPatPkt[16]! &&& 0x1fff
          pmtPidFound := true }, none) ∧
    parseEcmPid cDesc = .ok 0x123 := by
  constructor
  · exact ((psi_walker_discovery (initChanState []) 0 cPatPkt cDesc).1
      (by decide) rfl).2.2 (by decide) (by decide)
  · have h := (psi_walker_discovery (initChanState []) 0 cPatPkt cDesc).2.2
    rw [h]
    simp [findCA, cDesc, u16be]

theorem processPackets_eq_foldChunks (D : List Nat → List Nat → List Nat) :
    ∀ (st : ChanState) (rest : List Nat), 188 ∣ rest.length →
      processPackets D st rest = foldPackets D st (chunks188 rest)
  | st, [], _ => by simp [processPackets, chunks188, foldPackets]
  | st, a :: r, hdvd => by
    have hdvd2 : 188 ∣ ((a :: r).drop 188).length := by
      simp only [List.length_drop, List.length_cons]
      simp only [List.length_cons] at hdvd
      omega
    rw [processPackets, chunks188, foldPackets]
    rcases hp : processPacket D st ((a :: r).take 188) with ⟨st1, e⟩
    cases e with
    | error err => simp [hp]
    | ok out =>
      have ih := processPackets_eq_foldChunks D st1 ((a :: r).drop 188) hdvd2
      simp only [List.drop_succ_cons] at ih
      simp [hp, ih]
termination_by st rest => rest.length
decreasing_by simp; omega

/-- C7: the engine rejects a framed datagram whose length past the
offset is not a multiple of 188 with `rtpPayloadLength`; otherwise the
payload is exactly the concatenation of consecutive 188-byte TS
packets, each processed in order by `processPacket` (PSI walk, ECM,
descrambling), stopping at the first error. -/
theorem processRTP_slicing (D : List Nat → List Nat → List Nat)
    (st : ChanState) (payload : List Nat) (offset : Nat)
    (hoff : offset ≤ payload.length) :
    (¬(188 ∣ (payload.length - offset)) →
      processRTP D st payload offset = (st, .error .rtpPayloadLength)) ∧
    ((188 ∣ (payload.length - offset)) →
      processRTP D st payload offset =
        foldPackets D st (chunks188 (payload.drop offset))) := by
  constructor
  · intro h
    have hmod : (payload.length - offset) % 188 ≠ 0 := by omega
    simp [processRTP, hmod]
  · intro h
    have hmod : (payload.length - offset) % 188 = 0 := by omega
    have hdvd : 188 ∣ (payload.drop offset).length := by
      simp only [List.length_drop]
      omega
    simp [processRTP, hmod,
      processPackets_eq_foldChunks D st (payload.drop offset) hdvd]

/-- Witness for C7 at a concrete one-packet payload. -/
theorem processRTP_slicing_witness :
    processRTP cD16 (initChanState []) cPatPkt 0 =
      foldPackets cD16 (initChanState []) (chunks188 (cPatPkt.drop 0)) :=
  (processRTP_slicing cD16 (initChanState []) cPatPkt 0 (by decide)).2 (by decide)


/-- C8: once the ring is closed (`ioerr` latched), no sequence of ring
write operations ever clears the flag, and every subsequent `nextPtr`
returns no value and leaves the reader cursor unchanged, whatever the
cursor position. -/
theorem ring_closed_forever (st : RingState) (h : st.ioerr = true) :
    (∀ ops : List RingOp, (ops.foldl applyOp st).ioerr = true) ∧
    (∀ ptr : Fin 64, nextPtr st ptr = some (ptr, none)) := by
  constructor
  · intro ops
    induction ops generalizing st with
    | nil => exact h
    | cons op rest ih =>
      simp only [List.foldl_cons]
      apply ih
      cases op <;> simp [applyOp, addToBuf, closeBuf, h]
  · intro ptr
    simp [nextPtr, h]

/-- Witness for C8 at a concrete closed ring state and cursor. -/
theorem ring_closed_forever_witness :
    nextPtr cRingSt 3 = some (3, none) ∧
    (([RingOp.add [1], RingOp.close].foldl applyOp cRingSt)).ioerr = true :=
  ⟨(ring_closed_forever cRingSt rfl).2 3,
   (ring_closed_forever cRingSt rfl).1 [RingOp.add [1], RingOp.close]⟩

theorem wfDesc_scanOk : ∀ d : List Nat, wfDesc d = true → scanOk d = true
  | [], _ => by simp [scanOk]
  | a :: rest, hwf => by
    rw [wfDesc] at hwf
    by_cases htag : (a :: rest)[0]! = 0x09
    · rw [if_pos htag] at hwf
      simp only [Bool.and_eq_true, decide_eq_true_eq] at hwf
      obtain ⟨⟨⟨h2, h4⟩, hfit⟩, hrec⟩ := hwf
      have ih := wfDesc_scanOk ((a :: rest).drop (2 + (a :: rest)[1]!)) hrec
      rw [scanOk, if_neg (by omega), if_pos htag, if_neg (by omega)]
      by_cases hcaid : u16be (a :: rest)[2]! (a :: rest)[3]! = 0x5601
      · rw [if_pos hcaid]
        simp only [decide_eq_true_eq]
        omega
      · rw [if_neg hcaid, if_pos hfit]
        exact ih
    · rw [if_neg htag] at hwf
      simp only [Bool.and_eq_true, decide_eq_true_eq, Bool.and_true] at hwf
      obtain ⟨⟨h2, hfit⟩, hrec⟩ := hwf
      have ih := wfDesc_scanOk ((a :: rest).drop (2 + (a :: rest)[1]!)) hrec
      rw [scanOk, if_neg (by omega), if_neg htag, if_pos hfit]
      exact ih
termination_by d => d.length
decreasing_by all_goals (simp; try omega)

/-- C9 (counterexample): a concrete 188-byte PMT packet (sync byte,
PID `0x42`, zero pointer field, table id 2) whose program-info length
field reads `0x3FF`: the descriptor slice `pkt[17 : 17+pi_length]`
taken by the source reaches index 1039, far past the end of the
packet. -/
theorem pmt_slice_oob_cex :
    cPmtBadPkt.length = 188 ∧
    cPmtBadPkt[0]! = 0x47 ∧
    cPmtBadPkt[4]! = 0 ∧
    cPmtBadPkt[5]! = 2 ∧
    (u16be cPmtBadPkt[1]! cPmtBadPkt[2]! &&& 0x1fff) = 0x42 ∧
    piLengthOf cPmtBadPkt = 0x3ff ∧
    ¬(17 + piLengthOf cPmtBadPkt ≤ cPmtBadPkt.length) := by
  decide

/-- C9 (amended): for a 188-byte PMT packet, the descriptor slice and
scan stay within the packet provided the program-info length is at most
171 (so `17 + pi_length <= 188`) and the descriptor area is
well-formed (records chain exactly, CA descriptors carry at least 4
value bytes); for pi_length up to `0x3FF` the slice bound can exceed
the packet, as the counterexample shows. -/
theorem pmt_scan_in_bounds (pkt : List Nat) (h188 : pkt.length = 188)
    (hpi : piLengthOf pkt ≤ 171)
    (hwf : wfDesc ((pkt.drop 17).take (piLengthOf pkt)) = true) :
    17 + piLengthOf pkt ≤ pkt.length ∧
    scanOk ((pkt.drop 17).take (piLengthOf pkt)) = true :=
  ⟨by omega, wfDesc_scanOk _ hwf⟩

/-- Witness for C9's amended theorem at a concrete well-formed PMT
packet. -/
theorem pmt_scan_in_bounds_witness :
    17 + piLengthOf cPmtPkt ≤ cPmtPkt.length ∧
    scanOk ((cPmtPkt.drop 17).take (piLengthOf cPmtPkt)) = true :=
  pmt_scan_in_bounds cPmtPkt (by decide) (by decide)
    (by simp [wfDesc, cPmtPkt, piLengthOf, u16be, List.range_succ,
      show (6 : Nat) &&& 1023 = 6 from by decide])

theorem keysOk_of_eq {st st2 : ChanState} (h1 : st2.aesKey1 = st.aesKey1)
    (h2 : st2.aesKey2 = st.aesKey2) (h : keysOk st) : keysOk st2 := by
  unfold keysOk at h ⊢
  rw [h1, h2]
  exact h

theorem patStep_keys (st : ChanState) (pid : Nat) (pkt : List Nat) :
    (patStep st pid pkt).1.aesKey1 = st.aesKey1 ∧
    (patStep st pid pkt).1.aesKey2 = st.aesKey2 := by
  unfold patStep
  split_ifs <;> simp

theorem pmtStep_keys (st : ChanState) (pid : Nat) (pkt : List Nat) :
    (pmtStep st pid pkt).1.aesKey1 = st.aesKey1 ∧
    (pmtStep st pid pkt).1.aesKey2 = st.aesKey2 := by
  unfold pmtStep
  split_ifs <;> try simp
  split <;> simp

theorem ecmPlain_length (D : List Nat → List Nat → List Nat)
    (hD : ∀ k b, (D k b).length = 16) (k pkt : List Nat) :
    (ecmPlain D k pkt).length = 64 := by
  simp [ecmPlain, hD]

theorem processECM_keysOk (D : List Nat → List Nat → List Nat)
    (hD : ∀ k b, (D k b).length = 16) (st : ChanState) (pkt : List Nat)
    (hst : keysOk st) : keysOk (processECM D st pkt).1 := by
  have hlen : (ecmPlain D st.masterKey pkt).length = 64 :=
    ecmPlain_length D hD st.masterKey pkt
  unfold processECM
  split_ifs with hm h81
  · exact hst
  · right
    exact ⟨_, _, rfl, rfl, by simp [hlen], by simp [hlen]⟩
  · right
    exact ⟨_, _, rfl, rfl, by simp [hlen], by simp [hlen]⟩

/-- C10: the two working keys are both unset initially; every
`processPacket` transition preserves "both unset or both 16-byte"
(the ECM processor installs the pair in one step); and the descrambler
passes packets through unless both keys are installed. -/
theorem keys_installed_together (D : List Nat → List Nat → List Nat)
    (hD : ∀ k b, (D k b).length = 16) :
    (∀ mk, keysOk (initChanState mk)) ∧
    (∀ st pkt, keysOk st → keysOk (processPacket D st pkt).1) ∧
    (∀ (k1 k2 : Option (List Nat)) (pkt : List Nat),
      k1 = none ∨ k2 = none → decryptPacket D k1 k2 pkt = pkt) := by
  refine ⟨fun mk => Or.inl ⟨rfl, rfl⟩, ?_, ?_⟩
  · intro st pkt hst
    by_cases hsync : pkt[0]! ≠ 0x47
    · simp only [processPacket, if_pos hsync]
      exact hst
    · simp only [processPacket, if_neg hsync]
      obtain ⟨hk1, hk2⟩ := patStep_keys st (u16be pkt[1]! pkt[2]! &&& 0x1fff) pkt
      have hst1 : keysOk (patStep st (u16be pkt[1]! pkt[2]! &&& 0x1fff) pkt).1 :=
        keysOk_of_eq hk1 hk2 hst
      cases h1 : (patStep st (u16be pkt[1]! pkt[2]! &&& 0x1fff) pkt).2 with
      | some e => simp only [h1]; exact hst1
      | none =>
        simp only [h1]
        obtain ⟨hk1b, hk2b⟩ :=
          pmtStep_keys (patStep st (u16be pkt[1]! pkt[2]! &&& 0x1fff) pkt).1
            (u16be pkt[1]! pkt[2]! &&& 0x1fff) pkt
        have hst2 : keysOk (pmtStep
            (patStep st (u16be pkt[1]! pkt[2]! &&& 0x1fff) pkt).1
            (u16be pkt[1]! pkt[2]! &&& 0x1fff) pkt).1 :=
          keysOk_of_eq hk1b hk2b hst1
        cases h2 : (pmtStep (patStep st (u16be pkt[1]! pkt[2]! &&& 0x1fff) pkt).1
            (u16be pkt[1]! pkt[2]! &&& 0x1fff) pkt).2 with
        | some e => simp only [h2]; exact hst2
        | none =>
          simp only [h2]
          have hst3 : keysOk (ecmStep D
              (pmtStep (patStep st (u16be pkt[1]! pkt[2]! &&& 0x1fff) pkt).1
                (u16be pkt[1]! pkt[2]! &&& 0x1fff) pkt).1
              (u16be pkt[1]! pkt[2]! &&& 0x1fff) pkt).1 := by
            unfold ecmStep
            split_ifs with hc
            · exact processECM_keysOk D hD _ _ hst2
            · exact hst2
          cases h3 : (ecmStep D
              (pmtStep (patStep st (u16be pkt[1]! pkt[2]! &&& 0x1fff) pkt).1
                (u16be pkt[1]! pkt[2]! &&& 0x1fff) pkt).1
              (u16be pkt[1]! pkt[2]! &&& 0x1fff) pkt).2 with
          | some e => simp only [h3]; exact hst3
          | none => simp only [h3]; exact hst3
  · rintro k1 k2 pkt (rfl | rfl)
    · cases k2 <;> rfl
    · cases k1 <;> rfl

/-- Witness for C10 at a concrete state and packet. -/
theorem keys_installed_together_witness :
    keysOk (processPacket cD16 (initChanState []) cZeroPkt).1 ∧
    decryptPacket cD16 none (some cKey2) cZeroPkt = cZeroPkt :=
  ⟨(keys_installed_together cD16 (fun k b => by simp [cD16])).2.1
      (initChanState []) cZeroPkt (Or.inl ⟨rfl, rfl⟩),
   (keys_installed_together cD16 (fun k b => by simp [cD16])).2.2
      none (some cKey2) cZeroPkt (Or.inl rfl)⟩

end VMDecrypt
